import Mathlib

/- Verification development for the go-contextual library: a shallow embedding
   of its cancellation scopes, cause tracking, cleanup chains, task-group error
   aggregation, value store and task dispatch, with theorems checking the
   specification's claims against the embedded code. -/

/-- Models a Go `error` value as used by the library: the two context sentinels
plus distinguishable user-created errors (`custom n`).  An `Option GoErr`
stands for a possibly-nil `error`. -/
inductive GoErr where
  | canceled
  | deadlineExceeded
  | custom (n : Nat)
deriving DecidableEq

/-- Models the observable state of one Go context cancellation cell, as created
by `context.WithCancelCause` / `context.WithDeadlineCause` (the standard
library primitives that src/contextual.go and the derivation file in
src/unnamed/part_002 build on).  `err` is what `Err()` reports (`none` while
the cell is open), `cause` is what `context.Cause` reports, and `timerCause`
is the cause installed at construction by `WithDeadlineCause` for use when the
deadline fires. -/
structure CancelCtxState where
  err : Option GoErr
  cause : Option GoErr
  timerCause : Option GoErr
deriving DecidableEq

/-- A fresh open cell, as returned by `context.WithCancelCause`. -/
def openCell : CancelCtxState := ⟨none, none, none⟩

/-- A fresh open deadline cell holding the custom cause `c` given to
`context.WithDeadlineCause` (`none` for plain `WithDeadline` / `WithTimeout`). -/
def timerCell (c : Option GoErr) : CancelCtxState := ⟨none, none, c⟩

/-- Models calling the `context.CancelCauseFunc` of a cell with cause `e`:
a no-op if the cell is already closed, otherwise the cell closes with
`Err() = Canceled` and cause `e` (or `Canceled` when `e` is nil).  These are
exactly the semantics restated in the doc comment of
`Cancellable.CancelWithCause` in src/contextual.go. -/
def cancelCause (s : CancelCtxState) (e : Option GoErr) : CancelCtxState :=
  if s.err.isSome then s
  else { s with err := some GoErr.canceled, cause := some (e.getD GoErr.canceled) }

/-- Models the deadline of a `WithDeadlineCause` cell elapsing: a no-op if the
cell is already closed, otherwise it closes with `Err() = DeadlineExceeded`
and cause `timerCause` (or the `DeadlineExceeded` sentinel itself when no
custom cause was supplied). -/
def deadlineElapse (s : CancelCtxState) : CancelCtxState :=
  if s.err.isSome then s
  else { s with err := some GoErr.deadlineExceeded,
                cause := some (s.timerCause.getD GoErr.deadlineExceeded) }

/-- Models parent cancellation propagating into a derived cell: when a parent
context closes, Go cancels every derived child cell with the parent's error
`perr` and cause `pcause`; a child that already closed for its own reason is
left unchanged. -/
def parentClose (child : CancelCtxState) (perr pcause : GoErr) : CancelCtxState :=
  if child.err.isSome then child
  else { child with err := some perr, cause := some pcause }

/-- Models the `cancel context.CancelCauseFunc` field of `Cancellable`
(src/contextual.go) as the chain of wrappers the library builds around the raw
cancel: `base` is the raw cancel returned by `context.WithCancelCause`;
`wrapPlain l` is the wrapper built by `PushCancelFunc` around the pushed
function labelled `l`; `wrapCause l` is the wrapper built by
`PushCancelCauseFunc`; `causeWrap` is `CancelCauseWrap`
(src/unnamed/part_002), which discards its cause argument and invokes a plain
`context.CancelFunc`. -/
inductive CancelFn where
  | base
  | wrapPlain (l : Nat) (rest : CancelFn)
  | wrapCause (l : Nat) (rest : CancelFn)
  | causeWrap (rest : CancelFn)
deriving DecidableEq

/-- Observable events of running a cancel chain: a pushed plain cleanup
running, a pushed cause-accepting cleanup running (with the cause it
received), or the base context cancellation (with the cause it received). -/
inductive Ev where
  | cleanupPlain (l : Nat)
  | cleanupCause (l : Nat) (arg : Option GoErr)
  | baseCancel (arg : Option GoErr)
deriving DecidableEq

/-- Runs a cancel chain with cause `e` on cell `s`, returning the ordered
event trace and the resulting cell.  `wrapPlain` and `wrapCause` run their
pushed function first and then the wrapped cancel, exactly as built by
`PushCancelFunc` / `PushCancelCauseFunc` in src/contextual.go; `causeWrap`
ignores the supplied cause and invokes the wrapped plain cancel, which cancels
with a nil cause (`CancelCauseWrap` in src/unnamed/part_002). -/
def runCancel : CancelFn → Option GoErr → CancelCtxState → List Ev × CancelCtxState
  | CancelFn.base, e, s => ([Ev.baseCancel e], cancelCause s e)
  | CancelFn.wrapPlain l rest, e, s =>
    let r := runCancel rest e s
    (Ev.cleanupPlain l :: r.1, r.2)
  | CancelFn.wrapCause l rest, e, s =>
    let r := runCancel rest e s
    (Ev.cleanupCause l e :: r.1, r.2)
  | CancelFn.causeWrap rest, _, s => runCancel rest none s

/-- Models a Go `any` value stored in the value store (src/unnamed/part_003).
Each fixed-width integer kind of Go is a distinct constructor because Go's
type switch distinguishes them exactly; strings are carried as their byte
sequences (`List Nat`), which is what `strconv.ParseInt` consumes. -/
inductive GoValue where
  | vInt (n : Int)
  | vInt8 (n : Int)
  | vInt16 (n : Int)
  | vInt32 (n : Int)
  | vInt64 (n : Int)
  | vUint (n : Nat)
  | vUint8 (n : Nat)
  | vUint16 (n : Nat)
  | vUint32 (n : Nat)
  | vUint64 (n : Nat)
  | vString (bytes : List Nat)
  | vBool (b : Bool)
deriving DecidableEq

/-- Largest value representable in a Go `uint64`. -/
def maxUint64 : Nat := 2 ^ 64 - 1

/-- Models strconv's `lower(c byte) byte`, which sets the ASCII case bit. -/
def goLower (c : Nat) : Nat := c ||| 32

/-- Models the digit-accumulation loop of `strconv.ParseUint` with base
argument 0 (so underscores are skipped and remembered), 64-bit cutoff checks
included.  Returns the accumulated value and whether underscores were seen, or
`none` on an invalid digit or 64-bit overflow — both of which make the caller
in src/unnamed/part_003 return 0. -/
def goDigitsLoop : List Nat → Nat → Nat → Bool → Option (Nat × Bool)
  | [], _, n, us => some (n, us)
  | c :: rest, base, n, us =>
    if c = 95 then goDigitsLoop rest base n true
    else
      let d : Option Nat :=
        if 48 ≤ c ∧ c ≤ 57 then some (c - 48)
        else if 97 ≤ goLower c ∧ goLower c ≤ 122 then some (goLower c - 97 + 10)
        else none
      match d with
      | none => none
      | some dv =>
        if base ≤ dv then none
        else if maxUint64 < n * base + dv then none
        else goDigitsLoop rest base (n * base + dv) us

/-- Digit test used by strconv's `underscoreOK`: decimal digits always count,
hexadecimal letters count only after a hex prefix. -/
def isUnderscoreDigit (hex : Bool) (c : Nat) : Bool :=
  decide (48 ≤ c ∧ c ≤ 57) || (hex && decide (97 ≤ goLower c ∧ goLower c ≤ 102))

/-- Models the scanning loop of strconv's `underscoreOK`; `saw` encodes the
class of the previous character: 0 for start of number, 1 for a digit or base
prefix, 2 for an underscore, 3 for anything else.  An underscore must follow
and be followed by a digit. -/
def underscoreLoop (hex : Bool) : List Nat → Nat → Bool
  | [], saw => decide (saw ≠ 2)
  | c :: rest, saw =>
    if isUnderscoreDigit hex c then underscoreLoop hex rest 1
    else if c = 95 then
      if saw ≠ 1 then false else underscoreLoop hex rest 2
    else if saw = 2 then false
    else underscoreLoop hex rest 3

/-- Models strconv's `underscoreOK`: checks that underscores in the input
appear only between digits or between a base prefix and a digit, after an
optional sign. -/
def underscoreOK (s : List Nat) : Bool :=
  let s1 := match s with
    | c :: r => if c = 43 ∨ c = 45 then r else c :: r
    | [] => []
  match s1 with
  | c0 :: c1 :: rest =>
    if c0 = 48 ∧ (goLower c1 = 98 ∨ goLower c1 = 111 ∨ goLower c1 = 120) then
      underscoreLoop (decide (goLower c1 = 120)) rest 1
    else underscoreLoop false (c0 :: c1 :: rest) 0
  | c0 :: [] => underscoreLoop false [c0] 0
  | [] => underscoreLoop false [] 0

/-- Models `strconv.ParseUint(s, 0, 64)`: base detection from the `0b` / `0o`
/ `0x` / leading-`0` prefixes (base 10 otherwise, matching Go's requirement of
at least one digit after a two-byte prefix), digit accumulation with 64-bit
overflow checks, and the trailing underscore validity check.  `none` stands
for any non-nil error. -/
def parseUint0 (s0 : List Nat) : Option Nat :=
  match s0 with
  | [] => none
  | c0 :: rest =>
    let bd : Nat × List Nat :=
      if c0 = 48 then
        match rest with
        | c1 :: rest2 =>
          if rest2 ≠ [] ∧ goLower c1 = 98 then (2, rest2)
          else if rest2 ≠ [] ∧ goLower c1 = 111 then (8, rest2)
          else if rest2 ≠ [] ∧ goLower c1 = 120 then (16, rest2)
          else (8, c1 :: rest2)
        | [] => (8, [])
      else (10, c0 :: rest)
    match goDigitsLoop bd.2 bd.1 0 false with
    | none => none
    | some nu => if nu.2 && !underscoreOK s0 then none else some nu.1

/-- Models `strconv.ParseInt(s, 0, 0)` as called by `Cancellable.GetInt`
(src/unnamed/part_003): strips an optional leading sign, parses the rest as an
unsigned 64-bit number with automatic base detection, and applies the signed
64-bit range checks.  `none` stands for any non-nil error, in which case
`GetInt` returns 0. -/
def parseInt0 (s : List Nat) : Option Int :=
  match s with
  | [] => none
  | c :: rest =>
    let ns : Bool × List Nat :=
      if c = 43 then (false, rest)
      else if c = 45 then (true, rest)
      else (false, c :: rest)
    match parseUint0 ns.2 with
    | none => none
    | some un =>
      if ns.1 then
        if 2 ^ 63 < un then none else some (-(un : Int))
      else
        if 2 ^ 63 ≤ un then none else some ((un : Int))

/-- Models the `Cancellable` scope of src/contextual.go: its own context cell
(`ctx`), its cancel chain (`cancel`), the identity of the shared
`errgroup.Group` pointer (`errg`), and the `sync.Map` value store (`values`,
an association list with the most recent write first).  The root constructor
nests two context cells (see `RootScope` below, which models that pair
exactly); for the derivation claims only the scope's own observable cell
matters, so it is carried directly here. -/
structure Cancellable where
  ctx : CancelCtxState
  cancel : CancelFn
  errg : Nat
  values : List (Nat × GoValue)
deriving DecidableEq

/-- Models a root scope as built by `NewCancellable(context.Background())`
(src/contextual.go): a fresh open cell, the raw cancel, group pointer 0 and an
empty value store. -/
def NewCancellable : Cancellable := ⟨openCell, CancelFn.base, 0, []⟩

/-- Models `Cancellable.CloneWithNewContext` (src/contextual.go): the derived
scope takes the given cell and cancel and shares the parent's `errg` pointer;
the Go struct literal leaves the `values` field as a zero `sync.Map`, so the
derived scope starts with an empty value store. -/
def Cancellable.CloneWithNewContext (c : Cancellable) (ctx : CancelCtxState)
    (cancel : CancelFn) : Cancellable :=
  ⟨ctx, cancel, c.errg, []⟩

/-- Models `Cancellable.CancelWithCause` (src/contextual.go): invokes the
scope's cancel chain with the given cause; returns the event trace and the
updated scope. -/
def Cancellable.CancelWithCause (c : Cancellable) (e : Option GoErr) :
    List Ev × Cancellable :=
  let r := runCancel c.cancel e c.ctx
  (r.1, { c with ctx := r.2 })

/-- Models `Cancellable.Cancel` (src/contextual.go), which calls the cancel
chain with `context.Canceled` as the cause. -/
def Cancellable.Cancel (c : Cancellable) : List Ev × Cancellable :=
  c.CancelWithCause (some GoErr.canceled)

/-- The scope left after `CancelWithCause`; used for folding repeated
cancellation attempts. -/
def cancelStep (c : Cancellable) (e : Option GoErr) : Cancellable :=
  (c.CancelWithCause e).2

/-- Models `Cancellable.PushCancelFunc` (src/contextual.go): replaces the
cancel chain with a wrapper that first runs the pushed function `l` and then
the previous chain. -/
def Cancellable.PushCancelFunc (c : Cancellable) (l : Nat) : Cancellable :=
  { c with cancel := CancelFn.wrapPlain l c.cancel }

/-- Models `Cancellable.PushCancelCauseFunc` (src/contextual.go): replaces the
cancel chain with a wrapper that first runs the pushed cause-accepting
function `l` with the cause and then the previous chain. -/
def Cancellable.PushCancelCauseFunc (c : Cancellable) (l : Nat) : Cancellable :=
  { c with cancel := CancelFn.wrapCause l c.cancel }

/-- Models `Cancellable.AddValue` (src/unnamed/part_003): `sync.Map.Store`,
last write wins. -/
def Cancellable.AddValue (c : Cancellable) (key : Nat) (v : GoValue) : Cancellable :=
  { c with values := (key, v) :: c.values }

/-- Lookup in the association-list model of `sync.Map`: the most recent write
for a key is found first. -/
def lookupStore : List (Nat × GoValue) → Nat → Option GoValue
  | [], _ => none
  | (k, v) :: rest, key => if k = key then some v else lookupStore rest key

/-- Models `Cancellable.GetE` (src/unnamed/part_003): `sync.Map.Load`. -/
def Cancellable.GetE (c : Cancellable) (key : Nat) : Option GoValue :=
  lookupStore c.values key

/-- Models `Cancellable.GetInt` (src/unnamed/part_003): a type switch with
cases for exactly `int`, `int16`, `int32`, `int64` (converted to `int`) and
`string` (parsed by `strconv.ParseInt(s, 0, 0)`, with 0 on a parse error);
every other stored type, and an absent key, yield 0. -/
def Cancellable.GetInt (c : Cancellable) (key : Nat) : Int :=
  match c.GetE key with
  | some v =>
    match v with
    | GoValue.vInt n => n
    | GoValue.vInt16 n => n
    | GoValue.vInt32 n => n
    | GoValue.vInt64 n => n
    | GoValue.vString s =>
      match parseInt0 s with
      | some o => o
      | none => 0
    | _ => 0
  | none => 0

/-- Models `WithDeadlineCause` (src/unnamed/part_002) applied to a contextual
parent: a new `context.WithDeadlineCause` cell carrying the custom cause, and
a cancel chain that is `CancelCauseWrap` of the plain cancel returned by the
context package; the parent's task group is shared via `CloneWithNewContext`. -/
def WithDeadlineCause (p : Cancellable) (cause : Option GoErr) : Cancellable :=
  p.CloneWithNewContext (timerCell cause) (CancelFn.causeWrap CancelFn.base)

/-- Models `WithDeadline` (src/unnamed/part_002): `WithDeadlineCause` with a
nil cause. -/
def WithDeadline (p : Cancellable) : Cancellable := WithDeadlineCause p none

/-- Models `WithTimeout` (src/unnamed/part_002): delegates to `WithDeadline`. -/
def WithTimeout (p : Cancellable) : Cancellable := WithDeadline p

/-- Models `WithTimeoutCause` (src/unnamed/part_002): delegates to
`WithDeadlineCause`. -/
def WithTimeoutCause (p : Cancellable) (cause : Option GoErr) : Cancellable :=
  WithDeadlineCause p cause

/-- Models `WithCancel` (src/unnamed/part_002): clones the parent with a fresh
`context.WithCancelCause` cell and the raw cause-recording cancel. -/
def WithCancel (p : Cancellable) : Cancellable :=
  p.CloneWithNewContext openCell CancelFn.base

/-- Models `WithCancelCause` (src/unnamed/part_002): same construction as
`WithCancel`, returning the raw `CancelCauseFunc` to the caller. -/
def WithCancelCause (p : Cancellable) : Cancellable :=
  p.CloneWithNewContext openCell CancelFn.base

/-- Models `WithSignalCancel` (src/unnamed/part_002): the signal-notify
context is a plain cancellation cell, and the scope's cancel chain is
`CancelCauseWrap` of the stop function. -/
def WithSignalCancel (p : Cancellable) : Cancellable :=
  p.CloneWithNewContext openCell (CancelFn.causeWrap CancelFn.base)

/-- Models `WithSignalCancelOption` (src/options.go): same construction as
`WithSignalCancel`, applied as an option. -/
def WithSignalCancelOption (p : Cancellable) : Cancellable :=
  p.CloneWithNewContext openCell (CancelFn.causeWrap CancelFn.base)

/-- Models the pair of nested context cells inside a root scope built by
`NewCancellable` (src/contextual.go): `outerCell` is the
`context.WithCancelCause` cell whose cancel the scope stores, and `innerCell`
is the cell created by `errgroup.WithContext` on top of it — the cell the
scope actually reports through `Err`, `Done` and `context.Cause`. -/
structure RootScope where
  outerCell : CancelCtxState
  innerCell : CancelCtxState
deriving DecidableEq

/-- A freshly constructed root scope: both cells open. -/
def newRoot : RootScope := ⟨openCell, openCell⟩

/-- Models `Cancellable.CancelWithCause` on the root pair: the stored cancel
acts on the outer cell (a no-op if it is already closed) and Go propagates the
outer cell's error and cause into the inner cell if that one is still open. -/
def RootScope.cancelWithCause (r : RootScope) (e : Option GoErr) : RootScope :=
  if r.outerCell.err.isSome then r
  else
    { outerCell := cancelCause r.outerCell e
      innerCell := parentClose r.innerCell GoErr.canceled (e.getD GoErr.canceled) }

/-- The cause retrievable from the root scope: `context.Cause(c.ctx)` reads
the inner cell. -/
def RootScope.causeRetr (r : RootScope) : Option GoErr := r.innerCell.cause

/-- What `Err()` reports on the root scope: the inner cell's error. -/
def RootScope.errRetr (r : RootScope) : Option GoErr := r.innerCell.err

/-- Models the state of a `golang.org/x/sync/errgroup.Group` bound to a scope
by `errgroup.WithContext`: the captured first error (`gerr`, guarded by
`errOnce`) and the context cell the group's internal cancel acts on (`cell`,
which is the cell every task observes through the scope's done signal). -/
structure GroupState where
  gerr : Option GoErr
  cell : CancelCtxState
deriving DecidableEq

/-- The group as created by `errgroup.WithContext` in `NewCancellable`: no
error captured, open cell. -/
def groupStart : GroupState := ⟨none, openCell⟩

/-- Models one tracked task returning result `r`, as in `errgroup.Group.Go`:
a nil result changes nothing; the first non-nil result is captured through
`errOnce` and the group's cancel is invoked with it as cause; any later
non-nil result is discarded. -/
def taskReturn (g : GroupState) (r : Option GoErr) : GroupState :=
  match r with
  | none => g
  | some e => if g.gerr.isSome then g else ⟨some e, cancelCause g.cell (some e)⟩

/-- Folds a completion-ordered list of task results into the group, starting
from the fresh group. -/
def settleGroup (rs : List (Option GoErr)) : GroupState := rs.foldl taskReturn groupStart

/-- Models `errgroup.Group.Wait` after all tasks completed: cancels the bound
cell with the captured error as cause and returns the captured error. -/
def groupWait (g : GroupState) : Option GoErr × GroupState :=
  (g.gerr, { g with cell := cancelCause g.cell g.gerr })

/-- Models `Cancellable.Wait` (src/contextual.go) against a heap `gamma`
mapping `errgroup.Group` pointer identities to group states: the result is
determined by the group the scope's `errg` pointer designates. -/
def WaitResult (gamma : Nat → GroupState) (c : Cancellable) : Option GoErr :=
  (gamma c.errg).gerr

/-- Models the closed union `errgroupFuncs` of src/errgroup.go: each of the
three accepted task shapes, each possibly a typed nil function value. -/
inductive ErrgroupFunc where
  | funcErr (f : Option (Unit → Option GoErr))
  | ctxErrFunc (f : Option (CancelCtxState → Option GoErr))
  | ctxualErrFunc (f : Option (Cancellable → Option GoErr))

/-- Models `dispatchGoFunc` (src/errgroup.go): a typed-nil task reference is
passed through as a nil `func() error`; otherwise the task is normalized to a
zero-argument unit, closing over the scope for the context-accepting shapes. -/
def dispatchGoFunc (ctx : Cancellable) : ErrgroupFunc → Option (Unit → Option GoErr)
  | ErrgroupFunc.funcErr none => none
  | ErrgroupFunc.ctxErrFunc none => none
  | ErrgroupFunc.ctxualErrFunc none => none
  | ErrgroupFunc.funcErr (some f) => some f
  | ErrgroupFunc.ctxErrFunc (some f) => some (fun _ => f ctx.ctx)
  | ErrgroupFunc.ctxualErrFunc (some f) => some (fun _ => f ctx)

/-- Observable outcome of the goroutine spawned for a dispatched unit: normal
success, an error result, or a runtime fault. -/
inductive TaskOutcome where
  | ok
  | fail (e : GoErr)
  | panicked
deriving DecidableEq

/-- Models `errgroup.Group.Go` invoking the dispatched unit in its goroutine:
invoking a nil Go function value faults the program, otherwise the unit's
result is the outcome. -/
def invokeSpawned : Option (Unit → Option GoErr) → TaskOutcome
  | none => TaskOutcome.panicked
  | some f =>
    match f () with
    | none => TaskOutcome.ok
    | some e => TaskOutcome.fail e

/-- Models the generic `Go` (src/errgroup.go): dispatches `f` and hands the
result to `ctx.Go`, whose spawned goroutine produces the outcome. -/
def Go (ctx : Cancellable) (f : ErrgroupFunc) : TaskOutcome :=
  invokeSpawned (dispatchGoFunc ctx f)

/-- Models the generic `GoLabelled` (src/errgroup.go): the pprof label
wrapping funnels the unit's result through a channel without changing it, and
invoking a nil unit faults inside the labelled goroutine just the same; the
label metadata does not influence the outcome. -/
def GoLabelled (ctx : Cancellable) (_name _description : List Nat)
    (f : ErrgroupFunc) : TaskOutcome :=
  invokeSpawned (dispatchGoFunc ctx f)

/-- A registration on the cleanup chain: via `PushCancelFunc` (`plain`) or
`PushCancelCauseFunc` (`withCause`), identified by a label. -/
inductive Push where
  | plain (l : Nat)
  | withCause (l : Nat)
deriving DecidableEq

/-- Extends a cancel chain by one registration, as the two push methods do. -/
def pushOne (f : CancelFn) : Push → CancelFn
  | Push.plain l => CancelFn.wrapPlain l f
  | Push.withCause l => CancelFn.wrapCause l f

/-- Applies one registration to a scope via the corresponding push method of
src/contextual.go. -/
def applyPush (c : Cancellable) (p : Push) : Cancellable :=
  match p with
  | Push.plain l => c.PushCancelFunc l
  | Push.withCause l => c.PushCancelCauseFunc l

/-- The event a registered cleanup emits when the chain runs with cause `e`. -/
def evOfPush (e : Option GoErr) : Push → Ev
  | Push.plain l => Ev.cleanupPlain l
  | Push.withCause l => Ev.cleanupCause l e

/-- A closed cell absorbs any further cancellation: the recorded error and
cause are frozen. -/
theorem cancelCause_closed (s : CancelCtxState) (e : Option GoErr)
    (h : s.err.isSome = true) : cancelCause s e = s := by
  simp [cancelCause, h]

/-- Cancelling an already-cancelled root scope is a no-op: the stored
CancelCauseFunc does nothing after the first call. -/
theorem rootCancel_closed (r : RootScope) (e : Option GoErr)
    (h : r.outerCell.err.isSome = true) : r.cancelWithCause e = r := by
  simp [RootScope.cancelWithCause, h]

/-- Any sequence of further cancellation attempts on a closed root scope
leaves it unchanged. -/
theorem rootFold_closed (es : List (Option GoErr)) (r : RootScope)
    (h : r.outerCell.err.isSome = true) :
    es.foldl RootScope.cancelWithCause r = r := by
  induction es with
  | nil => rfl
  | cons a tl ih => rw [List.foldl_cons, rootCancel_closed r a h]; exact ih

/-- A derived scope whose cancel chain is the raw cancel and whose cell is
closed absorbs any further cancellation attempt. -/
theorem cancelStep_base_closed (c : Cancellable) (e : Option GoErr)
    (h1 : c.cancel = CancelFn.base) (h2 : c.ctx.err.isSome = true) :
    cancelStep c e = c := by
  cases c with
  | mk ctx cancel errg values =>
    simp only at h1 h2
    subst h1
    simp [cancelStep, Cancellable.CancelWithCause, runCancel, cancelCause_closed _ _ h2]

/-- Any sequence of further cancellation attempts on a closed raw-cancel scope
leaves it unchanged. -/
theorem cancelFold_base_closed (es : List (Option GoErr)) (c : Cancellable)
    (h1 : c.cancel = CancelFn.base) (h2 : c.ctx.err.isSome = true) :
    es.foldl cancelStep c = c := by
  induction es with
  | nil => rfl
  | cons a tl ih => rw [List.foldl_cons, cancelStep_base_closed c a h1 h2]; exact ih

/-- Tasks that return nil leave the group untouched. -/
theorem foldl_taskReturn_none (as : List (Option GoErr)) (g : GroupState)
    (h : ∀ x ∈ as, x = none) : as.foldl taskReturn g = g := by
  induction as generalizing g with
  | nil => rfl
  | cons a tl ih =>
    have ha : a = none := h a (by simp)
    subst ha
    rw [List.foldl_cons]
    exact ih g (fun x hx => h x (by simp [hx]))

/-- Once the group has captured an error, a later task result is discarded. -/
theorem taskReturn_closed (g : GroupState) (r : Option GoErr)
    (h : g.gerr.isSome = true) : taskReturn g r = g := by
  cases r with
  | none => rfl
  | some e => simp [taskReturn, h]

/-- Once the group has captured an error, any sequence of later task results
is discarded. -/
theorem foldl_taskReturn_closed (cs : List (Option GoErr)) (g : GroupState)
    (h : g.gerr.isSome = true) : cs.foldl taskReturn g = g := by
  induction cs with
  | nil => rfl
  | cons a tl ih => rw [List.foldl_cons, taskReturn_closed g a h]; exact ih

/-- Running a cancel chain extended by a list of pushes emits the pushed
cleanups in reverse push order, ahead of everything the original chain does,
and has the same effect on the cell as the original chain. -/
theorem runCancel_pushAll (ps : List Push) (f : CancelFn) (e : Option GoErr)
    (s : CancelCtxState) :
    runCancel (ps.foldl pushOne f) e s =
      (ps.reverse.map (evOfPush e) ++ (runCancel f e s).1, (runCancel f e s).2) := by
  induction ps generalizing f with
  | nil => simp
  | cons p tl ih =>
    rw [List.foldl_cons, ih (pushOne f p)]
    cases p with
    | plain l => simp [pushOne, runCancel, evOfPush]
    | withCause l => simp [pushOne, runCancel, evOfPush]

/-- Folding push registrations over a scope extends its cancel chain and
leaves its cell untouched. -/
theorem applyPush_fold (ps : List Push) (c : Cancellable) :
    (ps.foldl applyPush c).cancel = ps.foldl pushOne c.cancel ∧
    (ps.foldl applyPush c).ctx = c.ctx := by
  induction ps generalizing c with
  | nil => exact ⟨rfl, rfl⟩
  | cons p tl ih =>
    rw [List.foldl_cons, List.foldl_cons]
    have h := ih (applyPush c p)
    cases p with
    | plain l =>
      simpa [applyPush, Cancellable.PushCancelFunc, pushOne] using h
    | withCause l =>
      simpa [applyPush, Cancellable.PushCancelCauseFunc, pushOne] using h

/-- Claim C1 counterexample: the claim quantifies over every scope, but a
scope derived with a timeout (whose cancel chain is CancelCauseWrap of a plain
cancel) discards the supplied cause, so after CancelWithCause with the custom
error 0 and then with the custom error 1 the retrievable cause is the Canceled
sentinel, not the first error. -/
theorem causeFreezeDerivedCounterexample :
    (cancelStep (cancelStep (WithTimeout NewCancellable)
          (some (GoErr.custom 0))) (some (GoErr.custom 1))).ctx.cause
        = some GoErr.canceled
    ∧ (cancelStep (cancelStep (WithTimeout NewCancellable)
          (some (GoErr.custom 0))) (some (GoErr.custom 1))).ctx.cause
        ≠ some (GoErr.custom 0) := by
  decide

/-- Claim C1 (amended): for a root scope built by NewCancellable and for
scopes derived via WithCancel / WithCancelCause — whose stored cancel is a
genuine cause-recording CancelCauseFunc — the cause is set exactly once:
after CancelWithCause with a non-nil error e1, every sequence of later
cancellation attempts (with any error, including nil) leaves the retrievable
cause equal to e1.  Scopes derived via timeout / deadline / signal wrap a
plain cancel that discards the supplied cause. -/
theorem causeSetOnce (e1 : GoErr) (es : List (Option GoErr)) (p : Cancellable) :
    (es.foldl RootScope.cancelWithCause (newRoot.cancelWithCause (some e1))).causeRetr
        = some e1
    ∧ (es.foldl cancelStep (cancelStep (WithCancel p) (some e1))).ctx.cause = some e1 := by
  constructor
  · rw [rootFold_closed es (newRoot.cancelWithCause (some e1)) rfl]
    rfl
  · rw [cancelFold_base_closed es (cancelStep (WithCancel p) (some e1)) rfl rfl]
    rfl

/-- Claim C2: first-error-wins in the task group.  In any completion order in
which exactly one task returns the non-nil error e (all others returning nil),
the group captures e, cancels the bound scope cell so every other task sees
the done signal closed with cause e, Wait returns e, and any further task
results (the list cs, containing possibly non-nil errors) are discarded
without overwriting the captured error. -/
theorem groupFirstErrorWins (as bs cs : List (Option GoErr)) (e : GoErr)
    (ha : ∀ x ∈ as, x = none) (_hb : ∀ x ∈ bs, x = none) :
    (settleGroup (as ++ some e :: bs)).gerr = some e
    ∧ (settleGroup (as ++ some e :: bs)).cell.err = some GoErr.canceled
    ∧ (settleGroup (as ++ some e :: bs)).cell.cause = some e
    ∧ (groupWait (settleGroup (as ++ some e :: bs))).1 = some e
    ∧ (settleGroup ((as ++ some e :: bs) ++ cs)).gerr = some e := by
  have key : settleGroup (as ++ some e :: bs)
      = ⟨some e, ⟨some GoErr.canceled, some e, none⟩⟩ := by
    unfold settleGroup
    rw [List.foldl_append, foldl_taskReturn_none as groupStart ha, List.foldl_cons]
    exact foldl_taskReturn_closed bs _ rfl
  have key2 : settleGroup ((as ++ some e :: bs) ++ cs)
      = ⟨some e, ⟨some GoErr.canceled, some e, none⟩⟩ := by
    unfold settleGroup
    rw [List.foldl_append]
    rw [show (as ++ some e :: bs).foldl taskReturn groupStart
          = settleGroup (as ++ some e :: bs) from rfl, key]
    exact foldl_taskReturn_closed cs _ rfl
  refine ⟨by rw [key], by rw [key], by rw [key], by rw [key]; rfl, by rw [key2]⟩

/-- Claim C2 witness: a concrete run with four tasks completing in the order
nil, custom error 7, nil, nil, followed by a straggler task returning custom
error 9: the group captures and reports error 7, the bound cell closes with
cause 7, and the straggler's error is discarded. -/
theorem groupFirstErrorWinsWitness :
    (settleGroup ([none] ++ some (GoErr.custom 7) :: [none, none])).gerr
        = some (GoErr.custom 7)
    ∧ (settleGroup ([none] ++ some (GoErr.custom 7) :: [none, none])).cell.err
        = some GoErr.canceled
    ∧ (settleGroup ([none] ++ some (GoErr.custom 7) :: [none, none])).cell.cause
        = some (GoErr.custom 7)
    ∧ (groupWait (settleGroup ([none] ++ some (GoErr.custom 7) :: [none, none]))).1
        = some (GoErr.custom 7)
    ∧ (settleGroup (([none] ++ some (GoErr.custom 7) :: [none, none])
          ++ [some (GoErr.custom 9)])).gerr = some (GoErr.custom 7) :=
  groupFirstErrorWins [none] [none, none] [some (GoErr.custom 9)]
    (GoErr.custom 7) (by decide) (by decide)

/-- Claim C3: every derivation — timeout, deadline (with or without cause),
cancel, cancel-with-cause, signal-triggered (function or option form), and the
underlying CloneWithNewContext — preserves the parent's errgroup pointer, so
Wait on any derived scope reads the same shared group state as Wait on the
parent. -/
theorem derivationSharesTaskGroup (p : Cancellable) (gamma : Nat → GroupState)
    (co : Option GoErr) (s : CancelCtxState) (f : CancelFn) :
    (WithTimeout p).errg = p.errg
    ∧ (WithTimeoutCause p co).errg = p.errg
    ∧ (WithDeadline p).errg = p.errg
    ∧ (WithDeadlineCause p co).errg = p.errg
    ∧ (WithCancel p).errg = p.errg
    ∧ (WithCancelCause p).errg = p.errg
    ∧ (WithSignalCancel p).errg = p.errg
    ∧ (WithSignalCancelOption p).errg = p.errg
    ∧ (p.CloneWithNewContext s f).errg = p.errg
    ∧ WaitResult gamma (WithTimeout p) = WaitResult gamma p
    ∧ WaitResult gamma (WithDeadlineCause p co) = WaitResult gamma p
    ∧ WaitResult gamma (WithCancel p) = WaitResult gamma p
    ∧ WaitResult gamma (WithSignalCancel p) = WaitResult gamma p
    ∧ WaitResult gamma (p.CloneWithNewContext s f) = WaitResult gamma p :=
  ⟨rfl, rfl, rfl, rfl, rfl, rfl, rfl, rfl, rfl, rfl, rfl, rfl, rfl, rfl⟩

/-- Claim C4: a scope derived with a deadline and a non-nil custom cause
reports Err() = DeadlineExceeded once the deadline elapses, while the
retrievable cause is the custom error; Err() never returns the custom cause
itself. -/
theorem deadlineSentinelVsCause (p : Cancellable) (n : Nat) :
    (deadlineElapse (WithDeadlineCause p (some (GoErr.custom n))).ctx).err
        = some GoErr.deadlineExceeded
    ∧ (deadlineElapse (WithDeadlineCause p (some (GoErr.custom n))).ctx).cause
        = some (GoErr.custom n)
    ∧ (deadlineElapse (WithDeadlineCause p (some (GoErr.custom n))).ctx).err
        ≠ some (GoErr.custom n) := by
  refine ⟨rfl, rfl, fun h => ?_⟩
  exact GoErr.noConfusion (Option.some.inj h)

/-- A value just stored under a key is what the store reports for that key. -/
theorem getE_addValue (c : Cancellable) (k : Nat) (v : GoValue) :
    (c.AddValue k v).GetE k = some v := by
  simp [Cancellable.GetE, Cancellable.AddValue, lookupStore]

/-- Claim C5 counterexample: a pair written into the parent scope before
derivation is not readable through the derived scope (WithCancel clones the
scope with a fresh, empty value store), and a pair written into the derived
scope is not readable through the parent. -/
theorem valueStoreSharingCounterexample :
    (NewCancellable.AddValue 1 (GoValue.vInt 7)).GetE 1 = some (GoValue.vInt 7)
    ∧ (WithCancel (NewCancellable.AddValue 1 (GoValue.vInt 7))).GetE 1 = none
    ∧ ((WithCancel NewCancellable).AddValue 2 (GoValue.vInt 9)).GetE 2
        = some (GoValue.vInt 9)
    ∧ NewCancellable.GetE 2 = none := by
  decide

/-- Claim C5 (amended): every derivation builds the derived scope through
CloneWithNewContext, which shares the parent's errgroup pointer but leaves the
value store as a zero sync.Map — the derived scope starts with an empty store,
and no key stored in the parent is readable through it. -/
theorem derivedScopeFreshValueStore (p : Cancellable) (s : CancelCtxState)
    (f : CancelFn) (co : Option GoErr) (k : Nat) :
    (p.CloneWithNewContext s f).values = []
    ∧ (p.CloneWithNewContext s f).GetE k = none
    ∧ (WithCancel p).GetE k = none
    ∧ (WithCancelCause p).GetE k = none
    ∧ (WithSignalCancel p).GetE k = none
    ∧ (WithDeadlineCause p co).GetE k = none
    ∧ (WithTimeout p).GetE k = none
    ∧ (WithCancel p).errg = p.errg :=
  ⟨rfl, rfl, rfl, rfl, rfl, rfl, rfl, rfl⟩

/-- Claim C6 counterexample: int8 is a fixed-width signed integer kind and
uint32 a fixed-width unsigned one, yet GetInt returns 0 for stored values of
those kinds — the type switch in src/unnamed/part_003 has no case for them. -/
theorem getIntFixedWidthCounterexample :
    (NewCancellable.AddValue 1 (GoValue.vInt8 5)).GetInt 1 = 0
    ∧ (NewCancellable.AddValue 1 (GoValue.vInt8 5)).GetInt 1 ≠ 5
    ∧ (NewCancellable.AddValue 2 (GoValue.vUint32 6)).GetInt 2 = 0
    ∧ (NewCancellable.AddValue 2 (GoValue.vUint32 6)).GetInt 2 ≠ 6 := by
  decide

/-- Claim C6 (amended): GetInt accepts exactly the integer kinds int, int16,
int32 and int64 directly, converting to int; int8 and every unsigned kind are
incompatible and yield 0; a textual value gets base-agnostic integer parsing
(decimal, hexadecimal 0x, binary 0b, octal 0o, negative sign); and absence,
non-numeric text or any other stored type yield 0. -/
theorem getIntAmended (c : Cancellable) (k : Nat) (n : Int) (m : Nat) :
    (c.AddValue k (GoValue.vInt n)).GetInt k = n
    ∧ (c.AddValue k (GoValue.vInt16 n)).GetInt k = n
    ∧ (c.AddValue k (GoValue.vInt32 n)).GetInt k = n
    ∧ (c.AddValue k (GoValue.vInt64 n)).GetInt k = n
    ∧ (c.AddValue k (GoValue.vInt8 n)).GetInt k = 0
    ∧ (c.AddValue k (GoValue.vUint m)).GetInt k = 0
    ∧ (c.AddValue k (GoValue.vUint8 m)).GetInt k = 0
    ∧ (c.AddValue k (GoValue.vUint16 m)).GetInt k = 0
    ∧ (c.AddValue k (GoValue.vUint32 m)).GetInt k = 0
    ∧ (c.AddValue k (GoValue.vUint64 m)).GetInt k = 0
    ∧ (c.AddValue k (GoValue.vBool true)).GetInt k = 0
    ∧ NewCancellable.GetInt k = 0
    ∧ (c.AddValue k (GoValue.vString [52, 53, 54])).GetInt k = 456
    ∧ (c.AddValue k (GoValue.vString [48, 120, 50, 97])).GetInt k = 42
    ∧ (c.AddValue k (GoValue.vString [48, 98, 49, 48, 49])).GetInt k = 5
    ∧ (c.AddValue k (GoValue.vString [48, 111, 49, 55])).GetInt k = 15
    ∧ (c.AddValue k (GoValue.vString [45, 49, 50])).GetInt k = -12
    ∧ (c.AddValue k (GoValue.vString [110, 111, 116])).GetInt k = 0 := by
  refine ⟨?_, ?_, ?_, ?_, ?_, ?_, ?_, ?_, ?_, ?_, ?_, ?_, ?_, ?_, ?_, ?_, ?_, ?_⟩
  all_goals simp [Cancellable.GetInt, getE_addValue, Cancellable.GetE,
    NewCancellable, lookupStore]
  all_goals decide

/-- Claim C7: cancelling the parent always drives a derived scope (via cancel,
signal, or deadline derivation) into the closed state with Err() = Canceled,
whatever the parent's cause was; but a derived scope that closed earlier for
its own reason — its own trigger or its elapsed deadline — is left unchanged,
so the derived scope closes with whichever of the two events fires first. -/
theorem parentPropagation (p : Cancellable) (pcause : GoErr) (co : Option GoErr)
    (e : Option GoErr) :
    (parentClose (WithCancel p).ctx GoErr.canceled pcause).err = some GoErr.canceled
    ∧ (parentClose (WithSignalCancel p).ctx GoErr.canceled pcause).err
        = some GoErr.canceled
    ∧ (parentClose (WithDeadlineCause p co).ctx GoErr.canceled pcause).err
        = some GoErr.canceled
    ∧ parentClose (cancelCause (WithCancel p).ctx e) GoErr.canceled pcause
        = cancelCause (WithCancel p).ctx e
    ∧ parentClose (deadlineElapse (WithDeadlineCause p co).ctx) GoErr.canceled pcause
        = deadlineElapse (WithDeadlineCause p co).ctx :=
  ⟨rfl, rfl, rfl, rfl, rfl⟩

/-- Claim C8: dispatching a typed-nil task reference of any of the three
accepted shapes through the generic Go or GoLabelled makes the spawned
goroutine invoke a nil function value, which faults the program — the outcome
is a runtime fault, not a silent no-op and not an error returned through
Wait. -/
theorem typedNilDispatchFaults (c : Cancellable) (name description : List Nat) :
    Go c (ErrgroupFunc.funcErr none) = TaskOutcome.panicked
    ∧ Go c (ErrgroupFunc.ctxErrFunc none) = TaskOutcome.panicked
    ∧ Go c (ErrgroupFunc.ctxualErrFunc none) = TaskOutcome.panicked
    ∧ GoLabelled c name description (ErrgroupFunc.funcErr none) = TaskOutcome.panicked
    ∧ GoLabelled c name description (ErrgroupFunc.ctxErrFunc none) = TaskOutcome.panicked
    ∧ GoLabelled c name description (ErrgroupFunc.ctxualErrFunc none)
        = TaskOutcome.panicked
    ∧ (∀ e2 : GoErr, TaskOutcome.panicked ≠ TaskOutcome.fail e2)
    ∧ TaskOutcome.panicked ≠ TaskOutcome.ok :=
  ⟨rfl, rfl, rfl, rfl, rfl, rfl,
    fun _ h => TaskOutcome.noConfusion h, fun h => TaskOutcome.noConfusion h⟩

/-- Claim C9: a single cancellation after registering a sequence of cleanup
functions via PushCancelFunc / PushCancelCauseFunc runs the registered
functions in last-pushed-first-run order, all of them ahead of whatever the
scope's previous cancel chain does, and in particular ahead of the base
context cancellation; the effect on the scope's cell is unchanged. -/
theorem cleanupChainLIFO (ps : List Push) (c : Cancellable) (p : Cancellable)
    (e : Option GoErr) :
    ((ps.foldl applyPush c).CancelWithCause e).1
        = ps.reverse.map (evOfPush e) ++ (c.CancelWithCause e).1
    ∧ ((ps.foldl applyPush c).CancelWithCause e).2.ctx = (c.CancelWithCause e).2.ctx
    ∧ ((ps.foldl applyPush (WithCancel p)).CancelWithCause e).1
        = ps.reverse.map (evOfPush e) ++ [Ev.baseCancel e] := by
  have hc := applyPush_fold ps c
  have hp := applyPush_fold ps (WithCancel p)
  refine ⟨?_, ?_, ?_⟩
  · simp [Cancellable.CancelWithCause, hc.1, hc.2, runCancel_pushAll]
  · simp [Cancellable.CancelWithCause, hc.1, hc.2, runCancel_pushAll]
  · rw [show ((ps.foldl applyPush (WithCancel p)).CancelWithCause e).1
          = (runCancel ((ps.foldl applyPush (WithCancel p)).cancel) e
              ((ps.foldl applyPush (WithCancel p)).ctx)).1 from rfl,
        hp.1, hp.2, runCancel_pushAll]
    rfl

/-- Claim C10: on a scope derived via WithSignalCancel or the
WithSignalCancelOption option, CancelWithCause with a non-nil custom error
discards that error — the CancelCauseWrap wrapper ignores its cause argument
and invokes the plain stop function — so the scope closes with both Err() and
the retrievable cause equal to the Canceled sentinel, never the supplied
error. -/
theorem signalScopeDiscardsCause (p : Cancellable) (n : Nat) :
    (cancelStep (WithSignalCancel p) (some (GoErr.custom n))).ctx.cause
        = some GoErr.canceled
    ∧ (cancelStep (WithSignalCancel p) (some (GoErr.custom n))).ctx.err
        = some GoErr.canceled
    ∧ (cancelStep (WithSignalCancelOption p) (some (GoErr.custom n))).ctx.cause
        = some GoErr.canceled
    ∧ (cancelStep (WithSignalCancel p) (some (GoErr.custom n))).ctx.cause
        ≠ some (GoErr.custom n) := by
  refine ⟨rfl, rfl, rfl, fun h => ?_⟩
  exact GoErr.noConfusion (Option.some.inj h)
